import Mathlib

/- Shallow embedding of neupy/algorithms/steps/linear_search.py.

   The numeric search routines (interval_location, golden_search,
   fmin_golden_search) are translated over the exact reals; the theano
   scan-with-until loops become fuel recursion on the iteration count,
   where the until condition is checked after each iteration's update,
   exactly as theano does (the stopping iteration's output is included).
   The initial prev_func_output of interval_location is numpy's +inf,
   modelled as the top element of WithTop.

   The orchestrator LinearSearch.train_epoch works on floating-point
   error values that may be NaN or infinite; those are modelled by the
   inductive FVal below with rational finite payloads, so the NaN
   canonicalisation np.where(np.isnan(error), np.inf, error) and the
   comparisons made by the external minimizer stay decidable. -/

/-- Error values as produced by the floating-point error evaluator:
NaN, negative infinity, a finite value, or positive infinity. -/
inductive FVal where
  | nan : FVal
  | ninf : FVal
  | fin : ℚ → FVal
  | pinf : FVal
deriving DecidableEq

/-- np.isnan on an error value. -/
def FVal.isnan : FVal → Bool
  | .nan => true
  | _ => false

/-- IEEE-style strict less-than on error values: NaN is incomparable,
negative infinity is below everything else, positive infinity above. -/
def FVal.flt : FVal → FVal → Bool
  | .nan, _ => false
  | _, .nan => false
  | .ninf, .ninf => false
  | .ninf, _ => true
  | _, .ninf => false
  | .fin x, .fin y => decide (x < y)
  | .fin _, .pinf => true
  | .pinf, _ => false

/-- The expression np.where(np.isnan(error), np.inf, error) at the end of
setup_new_step in LinearSearch.train_epoch. -/
def nan_to_inf (e : FVal) : FVal := if e.isnan then .pinf else e

/-- The trial closure setup_new_step of LinearSearch.train_epoch.
P is the type of trainable-parameter states. param_defaults is the
snapshot captured at the start of the epoch; update combines setting
the shared step variable and running one training-epoch update on the
current parameters; prediction_error is the external error evaluator.
The incoming live state s is overwritten by the reset to the snapshot
before the single update is applied. -/
def setup_new_step {P : Type} (param_defaults : P) (update : ℝ → P → P)
    (prediction_error : P → FVal) (new_step : ℝ) (_s : P) : FVal × P :=
  let s2 := update new_step param_defaults
  (nan_to_inf (prediction_error s2), s2)

/-- LinearSearch.train_epoch: capture the parameter snapshot, let the
external scalar minimizer (scipy's minimize_scalar, a black box) probe
the trial closure at an arbitrary list of steps, threading the mutated
parameter state through, and finally commit by one more call of the
closure at the best step the minimizer returned; that committed error
is the method's return value. -/
def train_epoch {P : Type} (update : ℝ → P → P) (prediction_error : P → FVal)
    (trial_steps : List ℝ) (best_step : ℝ) (s0 : P) : FVal × P :=
  let param_defaults := s0
  let s1 := trial_steps.foldl
    (fun s step => (setup_new_step param_defaults update prediction_error step s).2) s0
  setup_new_step param_defaults update prediction_error best_step s1

/-- One update of the step variable inside find_right_bound of
interval_location: if the objective decreased (previous output strictly
greater than the current one), double the step, capped at maxstep;
otherwise leave it unchanged. -/
noncomputable def find_right_bound_step (f : ℝ → ℝ) (maxstep : ℝ)
    (prev : WithTop ℝ) (step : ℝ) : ℝ :=
  if (f step : WithTop ℝ) < prev then min (2 * step) maxstep else step

/-- The theano scan of interval_location: at most the given number of
iterations, stopping as soon as the objective strictly increased or the
updated step exceeds maxstep; the stopping iteration's step is the one
returned (steps[-1]). -/
noncomputable def interval_location_loop (f : ℝ → ℝ) (maxstep : ℝ) :
    WithTop ℝ → ℝ → ℕ → ℝ
  | _, step, 0 => step
  | prev, step, n + 1 =>
    if prev < (f step : WithTop ℝ) ∨ maxstep < find_right_bound_step f maxstep prev step then
      find_right_bound_step f maxstep prev step
    else
      interval_location_loop f maxstep (f step) (find_right_bound_step f maxstep prev step) n

/-- interval_location from the source: scan starting from
prev_func_output = +inf and step = minstep, for maxiter iterations. -/
noncomputable def interval_location (f : ℝ → ℝ) (minstep maxstep : ℝ)
    (maxiter : ℕ) : ℝ :=
  interval_location_loop f maxstep ⊤ minstep maxiter

/-- golden_ratio = (math.sqrt(5) - 1) / 2 from golden_search. -/
noncomputable def golden_ratio : ℝ := (Real.sqrt 5 - 1) / 2

/-- The 4-tuple [a, b, c, d] carried by the golden_search scan. -/
structure GoldenBracket where
  a : ℝ
  b : ℝ
  c : ℝ
  d : ℝ

/-- interval_reduction from golden_search: evaluate f at the interior
points c and d and shrink the bracket to the side of the smaller value. -/
noncomputable def interval_reduction (f : ℝ → ℝ) (s : GoldenBracket) : GoldenBracket :=
  if f s.c < f s.d then
    ⟨s.a, s.d, s.d - golden_ratio * (s.d - s.a), s.c⟩
  else
    ⟨s.c, s.b, s.d, s.c + golden_ratio * (s.b - s.c)⟩

/-- The theano scan of golden_search: at most the given number of
interval_reduction iterations, stopping as soon as the updated interior
points satisfy |c - d| < tol; the stopping iteration's bracket is kept. -/
noncomputable def golden_search_loop (f : ℝ → ℝ) (tol : ℝ) : GoldenBracket → ℕ → GoldenBracket
  | s, 0 => s
  | s, n + 1 =>
    if |(interval_reduction f s).c - (interval_reduction f s).d| < tol then
      interval_reduction f s
    else
      golden_search_loop f tol (interval_reduction f s) n

/-- The initial bracket of golden_search: a = 0, b = maxstep,
c = b - golden_ratio * (b - a), d = a + golden_ratio * (b - a). -/
noncomputable def golden_init (maxstep : ℝ) : GoldenBracket :=
  ⟨0, maxstep, maxstep - golden_ratio * (maxstep - 0), 0 + golden_ratio * (maxstep - 0)⟩

/-- golden_search from the source: run the scan from the initial bracket
and return (a[-1] + b[-1]) / 2. -/
noncomputable def golden_search (f : ℝ → ℝ) (maxstep : ℝ) (maxiter : ℕ) (tol : ℝ) : ℝ :=
  ((golden_search_loop f tol (golden_init maxstep) maxiter).a
    + (golden_search_loop f tol (golden_init maxstep) maxiter).b) / 2

/-- fmin_golden_search from the source: validate the parameters in the
order maxiter, minstep, maxstep, tol (each must be positive), then
require minstep < maxstep, then locate the right bound and run the
golden search on it.  ValueError is modelled as Except.error carrying
the exact message string. -/
noncomputable def fmin_golden_search (f : ℝ → ℝ) (minstep maxstep : ℝ)
    (maxiter : ℤ) (tol : ℝ) : Except String ℝ :=
  if maxiter ≤ 0 then
    .error "Parameter `maxiter` should be greater than zero."
  else if minstep ≤ 0 then
    .error "Parameter `minstep` should be greater than zero."
  else if maxstep ≤ 0 then
    .error "Parameter `maxstep` should be greater than zero."
  else if tol ≤ 0 then
    .error "Parameter `tol` should be greater than zero."
  else if maxstep ≤ minstep then
    .error "`minstep` should be smaller than `maxstep`"
  else
    .ok (golden_search f (interval_location f minstep maxstep maxiter.toNat)
          maxiter.toNat tol)

/-- Iteration-counting variant of interval_location_loop: same recursion,
also returning how many loop iterations were executed. -/
noncomputable def interval_location_loop_count (f : ℝ → ℝ) (maxstep : ℝ) :
    WithTop ℝ → ℝ → ℕ → ℝ × ℕ
  | _, step, 0 => (step, 0)
  | prev, step, n + 1 =>
    if prev < (f step : WithTop ℝ) ∨ maxstep < find_right_bound_step f maxstep prev step then
      (find_right_bound_step f maxstep prev step, 1)
    else
      ((interval_location_loop_count f maxstep (f step)
          (find_right_bound_step f maxstep prev step) n).1,
       (interval_location_loop_count f maxstep (f step)
          (find_right_bound_step f maxstep prev step) n).2 + 1)

/-- Iteration-counting variant of interval_location. -/
noncomputable def interval_location_count (f : ℝ → ℝ) (minstep maxstep : ℝ)
    (maxiter : ℕ) : ℝ × ℕ :=
  interval_location_loop_count f maxstep ⊤ minstep maxiter

/-- Iteration-counting variant of golden_search_loop. -/
noncomputable def golden_search_loop_count (f : ℝ → ℝ) (tol : ℝ) :
    GoldenBracket → ℕ → GoldenBracket × ℕ
  | s, 0 => (s, 0)
  | s, n + 1 =>
    if |(interval_reduction f s).c - (interval_reduction f s).d| < tol then
      (interval_reduction f s, 1)
    else
      ((golden_search_loop_count f tol (interval_reduction f s) n).1,
       (golden_search_loop_count f tol (interval_reduction f s) n).2 + 1)

/-- Iteration-counting variant of golden_search. -/
noncomputable def golden_search_count (f : ℝ → ℝ) (maxstep : ℝ) (maxiter : ℕ)
    (tol : ℝ) : ℝ × ℕ :=
  (((golden_search_loop_count f tol (golden_init maxstep) maxiter).1.a
      + (golden_search_loop_count f tol (golden_init maxstep) maxiter).1.b) / 2,
   (golden_search_loop_count f tol (golden_init maxstep) maxiter).2)

lemma interval_location_loop_count_le (f : ℝ → ℝ) (maxstep : ℝ) :
    ∀ (n : ℕ) (prev : WithTop ℝ) (step : ℝ),
      (interval_location_loop_count f maxstep prev step n).2 ≤ n := by
  intro n
  induction n with
  | zero => intro prev step; simp [interval_location_loop_count]
  | succ n ih =>
    intro prev step
    rw [interval_location_loop_count]
    split_ifs with h
    · exact Nat.succ_le_succ (Nat.zero_le n)
    · exact Nat.succ_le_succ (ih _ _)

lemma interval_location_loop_count_fst (f : ℝ → ℝ) (maxstep : ℝ) :
    ∀ (n : ℕ) (prev : WithTop ℝ) (step : ℝ),
      (interval_location_loop_count f maxstep prev step n).1
        = interval_location_loop f maxstep prev step n := by
  intro n
  induction n with
  | zero => intro prev step; rfl
  | succ n ih =>
    intro prev step
    rw [interval_location_loop_count, interval_location_loop]
    split_ifs with h
    · rfl
    · exact ih _ _

lemma golden_search_loop_count_le (f : ℝ → ℝ) (tol : ℝ) :
    ∀ (n : ℕ) (s : GoldenBracket), (golden_search_loop_count f tol s n).2 ≤ n := by
  intro n
  induction n with
  | zero => intro s; simp [golden_search_loop_count]
  | succ n ih =>
    intro s
    rw [golden_search_loop_count]
    split_ifs with h
    · exact Nat.succ_le_succ (Nat.zero_le n)
    · exact Nat.succ_le_succ (ih _)

lemma golden_search_loop_count_fst (f : ℝ → ℝ) (tol : ℝ) :
    ∀ (n : ℕ) (s : GoldenBracket),
      (golden_search_loop_count f tol s n).1 = golden_search_loop f tol s n := by
  intro n
  induction n with
  | zero => intro s; rfl
  | succ n ih =>
    intro s
    rw [golden_search_loop_count, golden_search_loop]
    split_ifs with h
    · rfl
    · exact ih _

lemma interval_location_loop_count_const (k maxstep : ℝ) :
    ∀ (n : ℕ) (step : ℝ), step ≤ maxstep →
      (interval_location_loop_count (fun _ => k) maxstep (k : WithTop ℝ) step n).2 = n := by
  intro n
  induction n with
  | zero => intro step _; rfl
  | succ n ih =>
    intro step hstep
    rw [interval_location_loop_count]
    have hfr : find_right_bound_step (fun _ => k) maxstep (k : WithTop ℝ) step = step := by
      simp [find_right_bound_step]
    rw [if_neg]
    · rw [hfr]; rw [ih step hstep]
    · rw [hfr]
      push_neg
      exact ⟨le_of_eq rfl, hstep⟩

lemma interval_location_count_const (k minstep maxstep : ℝ) :
    ∀ (maxiter : ℕ),
      (interval_location_count (fun _ => k) minstep maxstep maxiter).2 = maxiter := by
  intro maxiter
  cases maxiter with
  | zero => rfl
  | succ n =>
    rw [interval_location_count, interval_location_loop_count]
    have hfr : find_right_bound_step (fun _ => k) maxstep ⊤ minstep
        = min (2 * minstep) maxstep := by
      simp [find_right_bound_step, WithTop.coe_lt_top]
    rw [if_neg]
    · rw [hfr]
      rw [interval_location_loop_count_const k maxstep n _ (min_le_right _ _)]
    · rw [hfr]
      push_neg
      exact ⟨le_top, min_le_right _ _⟩

lemma golden_search_loop_count_tol_zero (f : ℝ → ℝ) :
    ∀ (n : ℕ) (s : GoldenBracket), (golden_search_loop_count f 0 s n).2 = n := by
  intro n
  induction n with
  | zero => intro s; rfl
  | succ n ih =>
    intro s
    rw [golden_search_loop_count]
    rw [if_neg (not_lt.2 (abs_nonneg _))]
    rw [ih]

/-- C9: both interval_location and golden_search terminate for every
objective and fuel, executing at most maxiter loop iterations, and the
instrumented runs return the same value as the originals; moreover for
a constant objective (whose run never triggers the early-increase stop)
and for tol = 0 (for which |c - d| < tol never holds) exactly maxiter
iterations are executed and a value is still returned. -/
theorem termination_within_maxiter :
    ∀ (f : ℝ → ℝ) (minstep maxstep tol k : ℝ) (maxiter : ℕ),
      (interval_location_count f minstep maxstep maxiter).2 ≤ maxiter ∧
      (interval_location_count f minstep maxstep maxiter).1
        = interval_location f minstep maxstep maxiter ∧
      (golden_search_count f maxstep maxiter tol).2 ≤ maxiter ∧
      (golden_search_count f maxstep maxiter tol).1
        = golden_search f maxstep maxiter tol ∧
      (interval_location_count (fun _ => k) minstep maxstep maxiter).2 = maxiter ∧
      (golden_search_count f maxstep maxiter 0).2 = maxiter := by
  intro f minstep maxstep tol k maxiter
  refine ⟨interval_location_loop_count_le f maxstep maxiter ⊤ minstep,
    interval_location_loop_count_fst f maxstep maxiter ⊤ minstep, ?_, ?_, ?_, ?_⟩
  · exact golden_search_loop_count_le f tol maxiter (golden_init maxstep)
  · rw [golden_search_count, golden_search,
      golden_search_loop_count_fst f tol maxiter (golden_init maxstep)]
  · exact interval_location_count_const k minstep maxstep maxiter
  · exact golden_search_loop_count_tol_zero f maxiter (golden_init maxstep)

/-- C8: in LinearSearch.train_epoch every trial first resets the
parameters to the epoch-start snapshot, so a trial's resulting state is
one single update applied to the snapshot, independent of whatever state
the previous trials left behind; consequently after train_epoch the
parameter state is exactly one update at the committed best step applied
to the original snapshot, and the committed error (with NaN coerced to
positive infinity) is returned. -/
theorem train_epoch_commit :
    ∀ (P : Type) (update : ℝ → P → P) (err : P → FVal)
      (trials : List ℝ) (best : ℝ) (s0 : P),
      train_epoch update err trials best s0
        = (nan_to_inf (err (update best s0)), update best s0) ∧
      (∀ (step : ℝ) (s t : P),
        (setup_new_step s0 update err step s).2 = update step s0 ∧
        (setup_new_step s0 update err step s).2
          = (setup_new_step s0 update err step t).2) := by
  intro P update err trials best s0
  exact ⟨rfl, fun step s t => ⟨rfl, rfl⟩⟩

/-- C2 counterexample: a negative-infinity error value is not replaced
by positive infinity by np.where(np.isnan(error), np.inf, error); it
passes through unchanged and still wins the comparison against a finite
error, so a step whose evaluation is -inf would be selected. -/
theorem nan_to_inf_ninf_not_replaced :
    nan_to_inf .ninf ≠ .pinf ∧
    FVal.flt (nan_to_inf .ninf) (nan_to_inf (.fin 0)) = true := by
  exact ⟨by decide, by decide⟩

/-- C2 amended: setup_new_step replaces exactly the NaN error values by
positive infinity; positive infinity is already positive infinity, so
NaN and +inf evaluations never compare strictly below any other value
and are never selected as best, but a negative-infinity evaluation is
returned unchanged. -/
theorem nan_to_inf_amended :
    ∀ (x : ℚ) (e : FVal),
      nan_to_inf .nan = .pinf ∧
      nan_to_inf .pinf = .pinf ∧
      nan_to_inf (.fin x) = .fin x ∧
      nan_to_inf .ninf = .ninf ∧
      FVal.flt (nan_to_inf .nan) e = false ∧
      FVal.flt (nan_to_inf .pinf) e = false := by
  intro x e
  refine ⟨rfl, rfl, rfl, rfl, ?_, ?_⟩ <;> cases e <;> rfl

/-- C7: one interval_reduction step multiplies the bracket width b - a
by exactly golden_ratio, whichever branch is taken, provided the
interior points satisfy the golden-section relations c = b - phi(b - a)
and d = a + phi(b - a) maintained by the algorithm. -/
theorem interval_reduction_width (f : ℝ → ℝ) (a b c d : ℝ)
    (hc : c = b - golden_ratio * (b - a))
    (hd : d = a + golden_ratio * (b - a)) :
    (interval_reduction f ⟨a, b, c, d⟩).b - (interval_reduction f ⟨a, b, c, d⟩).a
      = golden_ratio * (b - a) := by
  rw [interval_reduction]
  split_ifs with h
  · show d - a = golden_ratio * (b - a)
    rw [hd]; ring
  · show b - c = golden_ratio * (b - a)
    rw [hc]; ring

/-- C7 witness: the width relation applied to the concrete unit bracket. -/
theorem interval_reduction_width_witness :
    (interval_reduction (fun x => x)
        ⟨0, 1, 1 - golden_ratio * (1 - 0), 0 + golden_ratio * (1 - 0)⟩).b
      - (interval_reduction (fun x => x)
        ⟨0, 1, 1 - golden_ratio * (1 - 0), 0 + golden_ratio * (1 - 0)⟩).a
      = golden_ratio * (1 - 0) :=
  interval_reduction_width (fun x => x) 0 1 _ _ rfl rfl

lemma find_right_bound_step_mem (f : ℝ → ℝ) (minstep maxstep : ℝ)
    (h0 : 0 < minstep) (hle : minstep ≤ maxstep) (prev : WithTop ℝ) (step : ℝ)
    (hs : step ∈ Set.Icc minstep maxstep) :
    find_right_bound_step f maxstep prev step ∈ Set.Icc minstep maxstep := by
  rw [find_right_bound_step]
  split_ifs with h
  · exact ⟨le_min (by linarith [hs.1]) hle, min_le_right _ _⟩
  · exact hs

lemma interval_location_loop_mem (f : ℝ → ℝ) (minstep maxstep : ℝ)
    (h0 : 0 < minstep) (hle : minstep ≤ maxstep) :
    ∀ (n : ℕ) (prev : WithTop ℝ) (step : ℝ), step ∈ Set.Icc minstep maxstep →
      interval_location_loop f maxstep prev step n ∈ Set.Icc minstep maxstep := by
  intro n
  induction n with
  | zero => intro prev step hs; exact hs
  | succ n ih =>
    intro prev step hs
    rw [interval_location_loop]
    split_ifs with h
    · exact find_right_bound_step_mem f minstep maxstep h0 hle prev step hs
    · exact ih _ _ (find_right_bound_step_mem f minstep maxstep h0 hle prev step hs)

/-- C5: for every objective, every 0 < minstep < maxstep and maxiter >= 1,
interval_location returns a value in the closed interval
[minstep, maxstep]. -/
theorem interval_location_in_range (f : ℝ → ℝ) (minstep maxstep : ℝ)
    (maxiter : ℕ) (h0 : 0 < minstep) (hlt : minstep < maxstep)
    (_hiter : 1 ≤ maxiter) :
    interval_location f minstep maxstep maxiter ∈ Set.Icc minstep maxstep :=
  interval_location_loop_mem f minstep maxstep h0 (le_of_lt hlt) maxiter ⊤ minstep
    ⟨le_refl _, le_of_lt hlt⟩

/-- C5 witness: the range property at a concrete instance. -/
theorem interval_location_in_range_witness :
    interval_location (fun _ => (0 : ℝ)) 1 2 1 ∈ Set.Icc (1 : ℝ) 2 :=
  interval_location_in_range (fun _ => (0 : ℝ)) 1 2 1 (by norm_num) (by norm_num)
    (le_refl 1)

lemma interval_location_loop_stall (f : ℝ → ℝ) (maxstep : ℝ) :
    ∀ (n : ℕ) (s : ℝ), s ≤ maxstep →
      interval_location_loop f maxstep ((f s : ℝ) : WithTop ℝ) s n = s := by
  intro n
  induction n with
  | zero => intro s _; rfl
  | succ n ih =>
    intro s hs
    rw [interval_location_loop]
    have hfr : find_right_bound_step f maxstep ((f s : ℝ) : WithTop ℝ) s = s := by
      rw [find_right_bound_step, if_neg (lt_irrefl _)]
    rw [if_neg, hfr]
    · exact ih s hs
    · rw [hfr]
      push_neg
      exact ⟨le_refl _, hs⟩

/-- C3 counterexample: for the flat objective f = 0 (non-increasing on
[1, 50]) with minstep = 1, maxstep = 50 and maxiter = 1024,
interval_location returns 2, not maxstep = 50: the step only doubles on
a strict decrease of the objective, so a flat objective stalls after the
first iteration. -/
theorem interval_location_flat_counterexample :
    interval_location (fun _ => (0 : ℝ)) 1 50 1024 = 2 ∧ (2 : ℝ) ≠ 50 := by
  constructor
  · have h1024 : (1024 : ℕ) = 1023 + 1 := rfl
    rw [interval_location, h1024, interval_location_loop]
    have hfr : find_right_bound_step (fun _ => (0 : ℝ)) 50 ⊤ 1 = 2 := by
      rw [find_right_bound_step, if_pos (WithTop.coe_lt_top _)]
      norm_num
    rw [if_neg, hfr]
    · exact interval_location_loop_stall (fun _ => (0 : ℝ)) 50 1023 2 (by norm_num)
    · rw [hfr]
      push_neg
      exact ⟨le_top, by norm_num⟩
  · norm_num

lemma interval_location_loop_strictAnti (f : ℝ → ℝ) (minstep maxstep : ℝ)
    (h0 : 0 < minstep) (hle : minstep ≤ maxstep)
    (hanti : StrictAntiOn f (Set.Icc minstep maxstep)) :
    ∀ (n : ℕ) (prev : WithTop ℝ) (step : ℝ), step ∈ Set.Icc minstep maxstep →
      ((f step : ℝ) : WithTop ℝ) < prev →
      interval_location_loop f maxstep prev step n = min (2 ^ n * step) maxstep := by
  intro n
  induction n with
  | zero =>
    intro prev step hs _
    rw [interval_location_loop, pow_zero, one_mul, min_eq_left hs.2]
  | succ n ih =>
    intro prev step hs hp
    rw [interval_location_loop]
    have hfr : find_right_bound_step f maxstep prev step = min (2 * step) maxstep := by
      rw [find_right_bound_step, if_pos hp]
    have hnostop : ¬ (prev < ((f step : ℝ) : WithTop ℝ) ∨
        maxstep < find_right_bound_step f maxstep prev step) := by
      push_neg
      refine ⟨le_of_lt hp, ?_⟩
      rw [hfr]
      exact min_le_right _ _
    rw [if_neg hnostop, hfr]
    by_cases hcase : step < maxstep
    · have hstep2 : min (2 * step) maxstep ∈ Set.Icc minstep maxstep :=
        ⟨le_min (by linarith [hs.1]) hle, min_le_right _ _⟩
      have hlt2 : step < min (2 * step) maxstep :=
        lt_min (by linarith [hs.1]) hcase
      have hdec : ((f (min (2 * step) maxstep) : ℝ) : WithTop ℝ)
          < ((f step : ℝ) : WithTop ℝ) :=
        WithTop.coe_lt_coe.2 (hanti hs hstep2 hlt2)
      rw [ih _ _ hstep2 hdec]
      rcases le_or_lt (2 * step) maxstep with hmin | hmin
      · rw [min_eq_left hmin]
        have hpow : (2 : ℝ) ^ n * (2 * step) = 2 ^ (n + 1) * step := by ring
        rw [hpow]
      · have hone : (1 : ℝ) ≤ 2 ^ n := one_le_pow₀ (by norm_num : (1 : ℝ) ≤ 2)
        have hms0 : (0 : ℝ) ≤ maxstep := le_trans (le_of_lt h0) hle
        rw [min_eq_right (le_of_lt hmin),
          min_eq_right (le_mul_of_one_le_left hms0 hone)]
        have hbig : maxstep ≤ 2 ^ (n + 1) * step := by
          have h2s : (0 : ℝ) ≤ 2 * step := by linarith [hs.1]
          have hmono : 2 * step ≤ 2 ^ n * (2 * step) := le_mul_of_one_le_left h2s hone
          have hid : (2 : ℝ) ^ (n + 1) * step = 2 ^ n * (2 * step) := by ring
          linarith
        rw [min_eq_right hbig]
    · have hstepeq : step = maxstep := le_antisymm hs.2 (not_lt.1 hcase)
      subst hstepeq
      have hms0 : (0 : ℝ) < step := lt_of_lt_of_le h0 hs.1
      rw [min_eq_right (by linarith : step ≤ 2 * step)]
      rw [interval_location_loop_stall f step n step (le_refl _)]
      have hone : (1 : ℝ) ≤ 2 ^ (n + 1) :=
        one_le_pow₀ (by norm_num : (1 : ℝ) ≤ 2)
      rw [min_eq_right (le_mul_of_one_le_left (le_of_lt hms0) hone)]

lemma interval_location_strictAnti_eq (f : ℝ → ℝ) (minstep maxstep : ℝ)
    (maxiter : ℕ) (h0 : 0 < minstep) (hle : minstep ≤ maxstep)
    (hanti : StrictAntiOn f (Set.Icc minstep maxstep)) :
    interval_location f minstep maxstep maxiter
      = min (2 ^ maxiter * minstep) maxstep :=
  interval_location_loop_strictAnti f minstep maxstep h0 hle hanti maxiter ⊤ minstep
    ⟨le_refl _, hle⟩ (WithTop.coe_lt_top _)

/-- C3 amended: interval_location returns exactly maxstep for every
objective that is strictly decreasing on [minstep, maxstep], provided
the iteration budget suffices for the doubling to reach maxstep
(maxstep <= 2 ^ maxiter * minstep); for a merely non-increasing (e.g.
flat) objective, or a too-small maxiter, the step can stall below
maxstep. -/
theorem interval_location_strict_decrease_maxstep (f : ℝ → ℝ)
    (minstep maxstep : ℝ) (maxiter : ℕ) (h0 : 0 < minstep)
    (hlt : minstep < maxstep)
    (hanti : StrictAntiOn f (Set.Icc minstep maxstep))
    (hbudget : maxstep ≤ 2 ^ maxiter * minstep) :
    interval_location f minstep maxstep maxiter = maxstep := by
  rw [interval_location_strictAnti_eq f minstep maxstep maxiter h0 (le_of_lt hlt) hanti]
  exact min_eq_right hbudget

/-- C3 amended witness: the strictly decreasing objective -x on [1, 2]
with one iteration reaches maxstep = 2. -/
theorem interval_location_strict_decrease_maxstep_witness :
    interval_location (fun x => -x) 1 2 1 = 2 :=
  interval_location_strict_decrease_maxstep (fun x => -x) 1 2 1 (by norm_num)
    (by norm_num) (fun a _ b _ hab => neg_lt_neg hab) (by norm_num)

/-- C4: fmin_golden_search fails with an error naming the offending
parameter whenever one of maxiter, minstep, maxstep, tol is <= 0 (checked
in that order), fails when minstep >= maxstep, never calls the objective
in any failing case (the result is independent of the objective), and on
valid parameters returns, without error, the golden search run on the
bound located by interval_location. -/
theorem fmin_golden_search_validation :
    ∀ (f g : ℝ → ℝ) (minstep maxstep tol : ℝ) (maxiter : ℤ),
      (maxiter ≤ 0 →
        fmin_golden_search f minstep maxstep maxiter tol
          = .error "Parameter `maxiter` should be greater than zero.") ∧
      (0 < maxiter → minstep ≤ 0 →
        fmin_golden_search f minstep maxstep maxiter tol
          = .error "Parameter `minstep` should be greater than zero.") ∧
      (0 < maxiter → 0 < minstep → maxstep ≤ 0 →
        fmin_golden_search f minstep maxstep maxiter tol
          = .error "Parameter `maxstep` should be greater than zero.") ∧
      (0 < maxiter → 0 < minstep → 0 < maxstep → tol ≤ 0 →
        fmin_golden_search f minstep maxstep maxiter tol
          = .error "Parameter `tol` should be greater than zero.") ∧
      (0 < maxiter → 0 < minstep → 0 < maxstep → 0 < tol → maxstep ≤ minstep →
        fmin_golden_search f minstep maxstep maxiter tol
          = .error "`minstep` should be smaller than `maxstep`") ∧
      ((maxiter ≤ 0 ∨ minstep ≤ 0 ∨ maxstep ≤ 0 ∨ tol ≤ 0 ∨ maxstep ≤ minstep) →
        fmin_golden_search f minstep maxstep maxiter tol
          = fmin_golden_search g minstep maxstep maxiter tol) ∧
      (0 < maxiter → 0 < minstep → 0 < maxstep → 0 < tol → minstep < maxstep →
        fmin_golden_search f minstep maxstep maxiter tol
          = .ok (golden_search f (interval_location f minstep maxstep maxiter.toNat)
              maxiter.toNat tol)) := by
  intro f g minstep maxstep tol maxiter
  refine ⟨?_, ?_, ?_, ?_, ?_, ?_, ?_⟩
  · intro h1
    rw [fmin_golden_search, if_pos h1]
  · intro h1 h2
    rw [fmin_golden_search, if_neg (not_le.2 h1), if_pos h2]
  · intro h1 h2 h3
    rw [fmin_golden_search, if_neg (not_le.2 h1), if_neg (not_le.2 h2), if_pos h3]
  · intro h1 h2 h3 h4
    rw [fmin_golden_search, if_neg (not_le.2 h1), if_neg (not_le.2 h2),
      if_neg (not_le.2 h3), if_pos h4]
  · intro h1 h2 h3 h4 h5
    rw [fmin_golden_search, if_neg (not_le.2 h1), if_neg (not_le.2 h2),
      if_neg (not_le.2 h3), if_neg (not_le.2 h4), if_pos h5]
  · intro hbad
    rw [fmin_golden_search, fmin_golden_search]
    split_ifs with h1 h2 h3 h4 h5
    · rfl
    · rfl
    · rfl
    · rfl
    · rfl
    · rcases hbad with h | h | h | h | h
      · exact absurd h h1
      · exact absurd h h2
      · exact absurd h h3
      · exact absurd h h4
      · exact absurd h h5
  · intro h1 h2 h3 h4 h5
    rw [fmin_golden_search, if_neg (not_le.2 h1), if_neg (not_le.2 h2),
      if_neg (not_le.2 h3), if_neg (not_le.2 h4), if_neg (not_le.2 h5)]

/-- C4 witness: a failing instance (maxiter = 0) producing the maxiter
message, and a valid instance reaching the composed search. -/
theorem fmin_golden_search_validation_witness :
    fmin_golden_search (fun x => x) 1 2 0 1
      = .error "Parameter `maxiter` should be greater than zero." ∧
    fmin_golden_search (fun x => x) 1 2 1 1
      = .ok (golden_search (fun x => x)
          (interval_location (fun x => x) 1 2 (Int.toNat 1)) (Int.toNat 1) 1) := by
  constructor
  · exact (fmin_golden_search_validation (fun x => x) (fun x => x) 1 2 1 0).1
      (le_refl 0)
  · exact (fmin_golden_search_validation (fun x => x) (fun x => x) 1 2 1 1).2.2.2.2.2.2
      (by norm_num) (by norm_num) (by norm_num) (by norm_num) (by norm_num)

lemma sqrt5_lb : 223 / 100 < Real.sqrt 5 :=
  (Real.lt_sqrt (by norm_num)).2 (by norm_num)

lemma sqrt5_ub : Real.sqrt 5 < 9 / 4 :=
  (Real.sqrt_lt' (by norm_num)).2 (by norm_num)

lemma gr_half : 1 / 2 < golden_ratio := by
  rw [golden_ratio]
  linarith [sqrt5_lb]

lemma gr_pos : 0 < golden_ratio :=
  lt_trans (by norm_num) gr_half

lemma gr_lt_one : golden_ratio < 1 := by
  rw [golden_ratio]
  linarith [sqrt5_ub]

lemma gr_sq : golden_ratio ^ 2 = 1 - golden_ratio := by
  have h5 : Real.sqrt 5 ^ 2 = 5 := Real.sq_sqrt (by norm_num)
  rw [golden_ratio]
  linear_combination h5 / 4

/-- The shape invariant of the golden_search bracket: nonnegative left
end, ordered ends, and the two interior points in golden-section
position. -/
def bracket_inv (s : GoldenBracket) : Prop :=
  0 ≤ s.a ∧ s.a ≤ s.b ∧
  s.c = s.b - golden_ratio * (s.b - s.a) ∧
  s.d = s.a + golden_ratio * (s.b - s.a)

lemma bracket_inv_iff (s : GoldenBracket) :
    bracket_inv s ↔ (0 ≤ s.a ∧ s.a ≤ s.b ∧
      s.c = s.b - golden_ratio * (s.b - s.a) ∧
      s.d = s.a + golden_ratio * (s.b - s.a)) := Iff.rfl

lemma interval_reduction_inv (f : ℝ → ℝ) (s : GoldenBracket)
    (h : bracket_inv s) :
    bracket_inv (interval_reduction f s) ∧
    (interval_reduction f s).b - (interval_reduction f s).a
      = golden_ratio * (s.b - s.a) ∧
    s.a ≤ (interval_reduction f s).a ∧ (interval_reduction f s).b ≤ s.b := by
  obtain ⟨ha0, hab, hc, hd⟩ := (bracket_inv_iff s).1 h
  have hg0 := gr_pos
  have hg1 := gr_lt_one
  have hgsq := gr_sq
  have hba : 0 ≤ s.b - s.a := by linarith
  have hgba : 0 ≤ golden_ratio * (s.b - s.a) := mul_nonneg hg0.le hba
  have hgba2 : 0 ≤ (1 - golden_ratio) * (s.b - s.a) :=
    mul_nonneg (by linarith) hba
  rw [interval_reduction]
  split_ifs with hf
  · refine ⟨(bracket_inv_iff _).2 ⟨ha0, ?_, rfl, ?_⟩, ?_, le_refl _, ?_⟩
    · show s.a ≤ s.d
      rw [hd]; linarith
    · show s.c = s.a + golden_ratio * (s.d - s.a)
      rw [hc, hd]
      linear_combination (s.a - s.b) * hgsq
    · show s.d - s.a = golden_ratio * (s.b - s.a)
      rw [hd]; ring
    · show s.d ≤ s.b
      rw [hd]; linarith
  · refine ⟨(bracket_inv_iff _).2 ⟨?_, ?_, ?_, rfl⟩, ?_, ?_, le_refl _⟩
    · show 0 ≤ s.c
      rw [hc]; linarith
    · show s.c ≤ s.b
      rw [hc]; linarith
    · show s.d = s.b - golden_ratio * (s.b - s.c)
      rw [hc, hd]
      linear_combination (s.b - s.a) * hgsq
    · show s.b - s.c = golden_ratio * (s.b - s.a)
      rw [hc]; ring
    · show s.a ≤ s.c
      rw [hc]; linarith

lemma golden_search_loop_inv (f : ℝ → ℝ) (tol : ℝ) :
    ∀ (n : ℕ) (s : GoldenBracket), bracket_inv s →
      bracket_inv (golden_search_loop f tol s n) ∧
      s.a ≤ (golden_search_loop f tol s n).a ∧
      (golden_search_loop f tol s n).b ≤ s.b := by
  intro n
  induction n with
  | zero => intro s h; exact ⟨h, le_refl _, le_refl _⟩
  | succ n ih =>
    intro s h
    obtain ⟨hinv, _, hsub1, hsub2⟩ := interval_reduction_inv f s h
    rw [golden_search_loop]
    split_ifs with hstop
    · exact ⟨hinv, hsub1, hsub2⟩
    · obtain ⟨hinv2, ha2, hb2⟩ := ih (interval_reduction f s) hinv
      exact ⟨hinv2, le_trans hsub1 ha2, le_trans hb2 hsub2⟩

lemma golden_init_inv (maxstep : ℝ) (h : 0 ≤ maxstep) :
    bracket_inv (golden_init maxstep) :=
  (bracket_inv_iff _).2 ⟨le_refl 0, h, rfl, rfl⟩

lemma golden_search_mem (f : ℝ → ℝ) (maxstep : ℝ) (maxiter : ℕ) (tol : ℝ)
    (h : 0 ≤ maxstep) :
    golden_search f maxstep maxiter tol ∈ Set.Icc 0 maxstep := by
  obtain ⟨hres, hares, hbres⟩ :=
    golden_search_loop_inv f tol maxiter (golden_init maxstep) (golden_init_inv maxstep h)
  obtain ⟨h0a, hab, _, _⟩ := (bracket_inv_iff _).1 hres
  have ha' : (0 : ℝ) ≤ (golden_search_loop f tol (golden_init maxstep) maxiter).a := h0a
  have hb' : (golden_search_loop f tol (golden_init maxstep) maxiter).b ≤ maxstep := hbres
  rw [golden_search]
  constructor
  · linarith
  · linarith

lemma interval_location_id_two :
    interval_location (fun x : ℝ => x) 1 50 2 = 2 := by
  rw [interval_location, show (2 : ℕ) = 1 + 1 from rfl, interval_location_loop]
  have hfr1 : find_right_bound_step (fun x : ℝ => x) 50 ⊤ 1 = 2 := by
    rw [find_right_bound_step, if_pos (WithTop.coe_lt_top _)]
    norm_num
  rw [if_neg, hfr1]
  · show interval_location_loop (fun x : ℝ => x) 50 ((1 : ℝ) : WithTop ℝ) 2 (0 + 1) = 2
    rw [interval_location_loop]
    rw [if_pos]
    · rw [find_right_bound_step, if_neg]
      rw [WithTop.coe_lt_coe]
      norm_num
    · left
      show ((1 : ℝ) : WithTop ℝ) < ((2 : ℝ) : WithTop ℝ)
      rw [WithTop.coe_lt_coe]
      norm_num
  · rw [hfr1]
    push_neg
    exact ⟨le_top, by norm_num⟩

lemma golden_search_incr_eval :
    golden_search (fun x : ℝ => x) 2 2 (1 / 2) = (Real.sqrt 5 - 1) / 2 := by
  have h5 : Real.sqrt 5 ^ 2 = 5 := Real.sq_sqrt (by norm_num)
  have hlb := sqrt5_lb
  have hub := sqrt5_ub
  have hgrh := gr_half
  have hgr1 := gr_lt_one
  have hbr : ((fun x : ℝ => x) (golden_init 2).c) < ((fun x : ℝ => x) (golden_init 2).d) := by
    show (golden_init 2).c < (golden_init 2).d
    show (2 : ℝ) - golden_ratio * (2 - 0) < 0 + golden_ratio * (2 - 0)
    linarith
  have hred : interval_reduction (fun x : ℝ => x) (golden_init 2)
      = ⟨0, 0 + golden_ratio * (2 - 0),
          (0 + golden_ratio * (2 - 0))
            - golden_ratio * ((0 + golden_ratio * (2 - 0)) - 0),
          2 - golden_ratio * (2 - 0)⟩ := by
    rw [interval_reduction, if_pos hbr]
    rfl
  have hcd : (interval_reduction (fun x : ℝ => x) (golden_init 2)).c
      - (interval_reduction (fun x : ℝ => x) (golden_init 2)).d
      = 3 * Real.sqrt 5 - 7 := by
    rw [hred]
    show (0 + golden_ratio * (2 - 0))
        - golden_ratio * ((0 + golden_ratio * (2 - 0)) - 0)
        - (2 - golden_ratio * (2 - 0)) = 3 * Real.sqrt 5 - 7
    rw [golden_ratio]
    linear_combination (-1 / 2 : ℝ) * h5
  have hstop : |(interval_reduction (fun x : ℝ => x) (golden_init 2)).c
      - (interval_reduction (fun x : ℝ => x) (golden_init 2)).d| < 1 / 2 := by
    rw [hcd, abs_of_nonpos (by linarith)]
    linarith
  rw [golden_search, show (2 : ℕ) = 1 + 1 from rfl, golden_search_loop,
    if_pos hstop, hred]
  show ((0 : ℝ) + (0 + golden_ratio * (2 - 0))) / 2 = (Real.sqrt 5 - 1) / 2
  rw [golden_ratio]
  ring

/-- C10: the result of fmin_golden_search is only guaranteed to lie in
[0, maxstep], not in [minstep, maxstep]: for the strictly increasing
objective f(x) = x with minstep = 1, maxstep = 50, maxiter = 2,
tol = 1/2 the returned step is (sqrt 5 - 1)/2 < 1 = minstep, while for
every valid input any returned value y satisfies 0 <= y <= maxstep. -/
theorem fmin_golden_search_range :
    (fmin_golden_search (fun x : ℝ => x) 1 50 2 (1 / 2)
        = .ok ((Real.sqrt 5 - 1) / 2) ∧
      StrictMono (fun x : ℝ => x) ∧ (Real.sqrt 5 - 1) / 2 < 1) ∧
    (∀ (f : ℝ → ℝ) (minstep maxstep tol : ℝ) (maxiter : ℤ) (y : ℝ),
      0 < minstep → minstep < maxstep → 0 < tol → 0 < maxiter →
      fmin_golden_search f minstep maxstep maxiter tol = .ok y →
      0 ≤ y ∧ y ≤ maxstep) := by
  constructor
  · refine ⟨?_, fun a b hab => hab, by linarith [sqrt5_ub]⟩
    rw [fmin_golden_search, if_neg (by norm_num), if_neg (by norm_num),
      if_neg (by norm_num), if_neg (by norm_num), if_neg (by norm_num)]
    rw [show Int.toNat 2 = 2 from rfl, interval_location_id_two,
      golden_search_incr_eval]
  · intro f minstep maxstep tol maxiter y h1 h2 h3 h4 hok
    rw [fmin_golden_search, if_neg (not_le.2 h4), if_neg (not_le.2 h1),
      if_neg (not_le.2 (lt_trans h1 h2)), if_neg (not_le.2 h3),
      if_neg (not_le.2 h2)] at hok
    have hloc : interval_location f minstep maxstep maxiter.toNat
        ∈ Set.Icc minstep maxstep :=
      interval_location_loop_mem f minstep maxstep h1 (le_of_lt h2)
        maxiter.toNat ⊤ minstep ⟨le_refl _, le_of_lt h2⟩
    have hmem := golden_search_mem f
      (interval_location f minstep maxstep maxiter.toNat) maxiter.toNat tol
      (le_trans (le_of_lt h1) hloc.1)
    injection hok with hy
    rw [← hy]
    exact ⟨hmem.1, le_trans hmem.2 hloc.2⟩

/-- C10 witness: the universal bound applied to the concrete run that
returned (sqrt 5 - 1)/2. -/
theorem fmin_golden_search_range_witness :
    0 ≤ (Real.sqrt 5 - 1) / 2 ∧ (Real.sqrt 5 - 1) / 2 ≤ 50 := by
  have h := fmin_golden_search_range
  exact h.2 (fun x : ℝ => x) 1 50 (1 / 2) 2 ((Real.sqrt 5 - 1) / 2)
    (by norm_num) (by norm_num) (by norm_num) (by norm_num) h.1.1

/-- The golden-section refiner as worded by the spec: with
phi = (sqrt 5 - 1)/2 and bracket (a, b, c, d), each iteration evaluates
f at c and d and replaces the bracket by (a, d, d - phi(d - a), c) when
f(c) < f(d) and by (c, b, d, c + phi(b - c)) otherwise, stopping when
|c - d| < tol or after the iteration budget, and returning the final (a, b). -/
noncomputable def golden_section_spec_loop (f : ℝ → ℝ) (tol : ℝ) :
    ℝ → ℝ → ℝ → ℝ → ℕ → ℝ × ℝ
  | a, b, _, _, 0 => (a, b)
  | a, b, c, d, n + 1 =>
    if f c < f d then
      if |(d - golden_ratio * (d - a)) - c| < tol then (a, d)
      else golden_section_spec_loop f tol a d (d - golden_ratio * (d - a)) c n
    else
      if |d - (c + golden_ratio * (b - c))| < tol then (c, b)
      else golden_section_spec_loop f tol c b d (c + golden_ratio * (b - c)) n

/-- The spec's golden-section search: initial bracket a = 0,
b = maxstep, c = b - phi(b - a), d = a + phi(b - a); return (a + b)/2 of
the final bracket. -/
noncomputable def golden_section_spec (f : ℝ → ℝ) (maxstep : ℝ) (maxiter : ℕ)
    (tol : ℝ) : ℝ :=
  ((golden_section_spec_loop f tol 0 maxstep
      (maxstep - golden_ratio * (maxstep - 0))
      (0 + golden_ratio * (maxstep - 0)) maxiter).1
    + (golden_section_spec_loop f tol 0 maxstep
      (maxstep - golden_ratio * (maxstep - 0))
      (0 + golden_ratio * (maxstep - 0)) maxiter).2) / 2

lemma golden_section_spec_loop_eq (f : ℝ → ℝ) (tol : ℝ) :
    ∀ (n : ℕ) (s : GoldenBracket),
      golden_section_spec_loop f tol s.a s.b s.c s.d n
        = ((golden_search_loop f tol s n).a, (golden_search_loop f tol s n).b) := by
  intro n
  induction n with
  | zero => intro s; rfl
  | succ n ih =>
    intro s
    rw [golden_section_spec_loop, golden_search_loop]
    by_cases hf : f s.c < f s.d
    · have hr : interval_reduction f s
          = ⟨s.a, s.d, s.d - golden_ratio * (s.d - s.a), s.c⟩ := by
        rw [interval_reduction, if_pos hf]
      rw [if_pos hf, hr]
      split_ifs with h1
      · rfl
      · exact ih ⟨s.a, s.d, s.d - golden_ratio * (s.d - s.a), s.c⟩
    · have hr : interval_reduction f s
          = ⟨s.c, s.b, s.d, s.c + golden_ratio * (s.b - s.c)⟩ := by
        rw [interval_reduction, if_neg hf]
      rw [if_neg hf, hr]
      split_ifs with h1
      · rfl
      · exact ih ⟨s.c, s.b, s.d, s.c + golden_ratio * (s.b - s.c)⟩

/-- C1: for every objective and positive maxstep, maxiter and tol,
golden_search computes exactly the golden-section update rule stated by
the spec: starting from the bracket (0, maxstep, b - phi(b-a),
a + phi(b-a)) it iterates the two-branch bracket replacement, stops when
|c - d| < tol or after maxiter iterations, and returns (a + b)/2 of the
final bracket. -/
theorem golden_search_follows_spec (f : ℝ → ℝ) (maxstep : ℝ) (maxiter : ℕ)
    (tol : ℝ) (_h1 : 0 < maxstep) (_h2 : 1 ≤ maxiter) (_h3 : 0 < tol) :
    golden_search f maxstep maxiter tol
      = golden_section_spec f maxstep maxiter tol := by
  have h := golden_section_spec_loop_eq f tol maxiter (golden_init maxstep)
  rw [golden_search, golden_section_spec,
    show golden_section_spec_loop f tol 0 maxstep
        (maxstep - golden_ratio * (maxstep - 0))
        (0 + golden_ratio * (maxstep - 0)) maxiter
      = ((golden_search_loop f tol (golden_init maxstep) maxiter).a,
         (golden_search_loop f tol (golden_init maxstep) maxiter).b) from h]

/-- C1 witness: agreement at a concrete instance. -/
theorem golden_search_follows_spec_witness :
    golden_search (fun _ : ℝ => (0 : ℝ)) 1 1 1
      = golden_section_spec (fun _ : ℝ => (0 : ℝ)) 1 1 1 :=
  golden_search_follows_spec (fun _ : ℝ => (0 : ℝ)) 1 1 1 one_pos (le_refl 1)
    one_pos

lemma bracket_cd_le (s : GoldenBracket) (h : bracket_inv s) : s.c ≤ s.d := by
  obtain ⟨_, hab, hc, hd⟩ := (bracket_inv_iff s).1 h
  have h1 : 0 ≤ (2 * golden_ratio - 1) * (s.b - s.a) :=
    mul_nonneg (by linarith [gr_half]) (by linarith)
  rw [hc, hd]
  nlinarith [h1]

lemma interval_reduction_keeps_min (f : ℝ → ℝ) (m : ℝ)
    (hconv : ConvexOn ℝ Set.univ f) (huniq : ∀ x, x ≠ m → f m < f x)
    (s : GoldenBracket) (h : bracket_inv s) (hm : m ∈ Set.Icc s.a s.b) :
    m ∈ Set.Icc (interval_reduction f s).a (interval_reduction f s).b := by
  have hmin : ∀ x, f m ≤ f x := by
    intro x
    rcases eq_or_ne x m with hxm | hxm
    · rw [hxm]
    · exact (huniq x hxm).le
  have hcd := bracket_cd_le s h
  obtain ⟨ha0, hab, hc, hd⟩ := (bracket_inv_iff s).1 h
  rw [interval_reduction]
  split_ifs with hf
  · refine ⟨hm.1, ?_⟩
    show m ≤ s.d
    by_contra hcon
    push_neg at hcon
    have hcltd : s.c < s.d := by
      rcases lt_or_eq_of_le hcd with hlt | heq
      · exact hlt
      · exact absurd hf (by rw [heq]; exact lt_irrefl _)
    have hmc : s.c < m := lt_trans hcltd hcon
    have hmc0 : 0 < m - s.c := by linarith
    have ht0 : 0 < (m - s.d) / (m - s.c) := div_pos (by linarith) hmc0
    have ht1 : 0 < 1 - (m - s.d) / (m - s.c) := by
      have hrw : 1 - (m - s.d) / (m - s.c) = (s.d - s.c) / (m - s.c) := by
        field_simp
      rw [hrw]
      exact div_pos (by linarith) hmc0
    have hsum : (m - s.d) / (m - s.c) + (1 - (m - s.d) / (m - s.c)) = 1 := by
      ring
    have hkey := hconv.2 (Set.mem_univ s.c) (Set.mem_univ m) ht0.le ht1.le hsum
    have hcomb : ((m - s.d) / (m - s.c)) • s.c
        + (1 - (m - s.d) / (m - s.c)) • m = s.d := by
      simp only [smul_eq_mul]
      field_simp
      ring
    rw [hcomb] at hkey
    simp only [smul_eq_mul] at hkey
    have hfm : f m ≤ f s.d := hmin s.d
    linarith [hkey, mul_lt_mul_of_pos_left hf ht0,
      mul_le_mul_of_nonneg_left hfm ht1.le]
  · refine ⟨?_, hm.2⟩
    show s.c ≤ m
    by_contra hcon
    push_neg at hcon
    have hcltd : s.c < s.d := by
      rcases lt_or_eq_of_le hcd with hlt | heq
      · exact hlt
      · exfalso
        have h2g : (0 : ℝ) < 2 * golden_ratio - 1 := by linarith [gr_half]
        have hzero : (2 * golden_ratio - 1) * (s.b - s.a) = 0 := by
          have hcd0 : s.c - s.d = 0 := by rw [heq]; ring
          have hexp : s.c - s.d = (1 - 2 * golden_ratio) * (s.b - s.a) := by
            rw [hc, hd]; ring
          nlinarith [hcd0, hexp]
        have hba0 : s.b - s.a = 0 := by
          rcases mul_eq_zero.1 hzero with hone | htwo
          · exact absurd hone (ne_of_gt h2g)
          · exact htwo
        have hgb : golden_ratio * (s.b - s.a) = 0 := by rw [hba0, mul_zero]
        have hcb : s.c = s.b := by rw [hc, hgb]; ring
        have hmb : m = s.b := by
          have := hm.1
          have := hm.2
          linarith
        rw [hcb, hmb] at hcon
        exact lt_irrefl _ hcon
    have hmd : m < s.d := lt_trans hcon hcltd
    have hdm0 : 0 < s.d - m := by linarith
    have ht0 : 0 < (s.d - s.c) / (s.d - m) := div_pos (by linarith) hdm0
    have ht1 : 0 < 1 - (s.d - s.c) / (s.d - m) := by
      have hrw : 1 - (s.d - s.c) / (s.d - m) = (s.c - m) / (s.d - m) := by
        field_simp
      rw [hrw]
      exact div_pos (by linarith) hdm0
    have hsum : (s.d - s.c) / (s.d - m) + (1 - (s.d - s.c) / (s.d - m)) = 1 := by
      ring
    have hkey := hconv.2 (Set.mem_univ m) (Set.mem_univ s.d) ht0.le ht1.le hsum
    have hcomb : ((s.d - s.c) / (s.d - m)) • m
        + (1 - (s.d - s.c) / (s.d - m)) • s.d = s.c := by
      simp only [smul_eq_mul]
      field_simp
      ring
    rw [hcomb] at hkey
    simp only [smul_eq_mul] at hkey
    have hfd : f s.d ≤ f s.c := not_lt.1 hf
    have hfm : f m < f s.c := huniq s.c (ne_of_gt hcon)
    linarith [hkey, mul_lt_mul_of_pos_left hfm ht0,
      mul_le_mul_of_nonneg_left hfd ht1.le]

lemma golden_search_loop_min_bound (f : ℝ → ℝ) (tol m : ℝ)
    (hconv : ConvexOn ℝ Set.univ f) (huniq : ∀ x, x ≠ m → f m < f x) :
    ∀ (n : ℕ) (s : GoldenBracket), bracket_inv s → m ∈ Set.Icc s.a s.b →
      bracket_inv (golden_search_loop f tol s n) ∧
      m ∈ Set.Icc (golden_search_loop f tol s n).a
        (golden_search_loop f tol s n).b ∧
      ((golden_search_loop f tol s n).b - (golden_search_loop f tol s n).a
          = golden_ratio ^ n * (s.b - s.a) ∨
        (2 * golden_ratio - 1) * ((golden_search_loop f tol s n).b
          - (golden_search_loop f tol s n).a) < tol) := by
  intro n
  induction n with
  | zero =>
    intro s h hm
    rw [golden_search_loop]
    refine ⟨h, hm, Or.inl ?_⟩
    rw [pow_zero, one_mul]
  | succ n ih =>
    intro s h hm
    obtain ⟨hinv1, hw1, _, _⟩ := interval_reduction_inv f s h
    have hm1 := interval_reduction_keeps_min f m hconv huniq s h hm
    rw [golden_search_loop]
    split_ifs with hstop
    · refine ⟨hinv1, hm1, Or.inr ?_⟩
      obtain ⟨_, hab1, hc1, hd1⟩ := (bracket_inv_iff _).1 hinv1
      have hcdval : (interval_reduction f s).c - (interval_reduction f s).d
          = (1 - 2 * golden_ratio)
            * ((interval_reduction f s).b - (interval_reduction f s).a) := by
        rw [hc1, hd1]; ring
      have habs : |(interval_reduction f s).c - (interval_reduction f s).d|
          = (2 * golden_ratio - 1)
            * ((interval_reduction f s).b - (interval_reduction f s).a) := by
        rw [hcdval, abs_of_nonpos (mul_nonpos_iff.2 (Or.inr
          ⟨by linarith [gr_half], by linarith⟩))]
        ring
      rw [habs] at hstop
      exact hstop
    · obtain ⟨hinv2, hm2, hw2⟩ := ih (interval_reduction f s) hinv1 hm1
      refine ⟨hinv2, hm2, ?_⟩
      rcases hw2 with hcase | hcase
      · left
        rw [hcase, hw1]
        ring
      · right
        exact hcase

/-- C6 amended: on a convex unimodal objective (convex with a unique
minimum at m) with m inside [0, maxstep], with tol > 0 and an iteration
budget large enough that golden_ratio ^ maxiter * maxstep <= tol,
golden_search returns a value within ((sqrt 5 + 2)/2) * tol of m (about
2.12 * tol), not within tol: the loop stops as soon as |c - d| < tol,
which only bounds the bracket width by (sqrt 5 + 2) * tol, and the
returned midpoint can sit up to half that width away from m. -/
theorem golden_search_near_min (f : ℝ → ℝ) (maxstep : ℝ) (maxiter : ℕ)
    (tol m : ℝ) (hconv : ConvexOn ℝ Set.univ f)
    (huniq : ∀ x, x ≠ m → f m < f x) (hm : m ∈ Set.Icc 0 maxstep)
    (htol : 0 < tol)
    (hbudget : golden_ratio ^ maxiter * maxstep ≤ tol) :
    |golden_search f maxstep maxiter tol - m|
      ≤ (Real.sqrt 5 + 2) / 2 * tol := by
  have hms0 : (0 : ℝ) ≤ maxstep := le_trans hm.1 hm.2
  obtain ⟨hinv, hmm, hwidth⟩ :=
    golden_search_loop_min_bound f tol m hconv huniq maxiter
      (golden_init maxstep) (golden_init_inv maxstep hms0) hm
  obtain ⟨h0a, hab, _, _⟩ := (bracket_inv_iff _).1 hinv
  have hmid : |golden_search f maxstep maxiter tol - m|
      ≤ ((golden_search_loop f tol (golden_init maxstep) maxiter).b
        - (golden_search_loop f tol (golden_init maxstep) maxiter).a) / 2 := by
    rw [golden_search, abs_le]
    constructor
    · linarith [hmm.1, hmm.2]
    · linarith [hmm.1, hmm.2]
  have hgid : (2 * golden_ratio - 1) * (Real.sqrt 5 + 2) = 1 := by
    have h5 : Real.sqrt 5 ^ 2 = 5 := Real.sq_sqrt (by norm_num)
    rw [golden_ratio]
    linear_combination h5
  have hsq2 : (1 : ℝ) ≤ Real.sqrt 5 + 2 := by linarith [sqrt5_lb]
  rcases hwidth with hcase | hcase
  · have hwle : (golden_search_loop f tol (golden_init maxstep) maxiter).b
        - (golden_search_loop f tol (golden_init maxstep) maxiter).a ≤ tol := by
      rw [hcase]
      calc golden_ratio ^ maxiter * ((golden_init maxstep).b - (golden_init maxstep).a)
          = golden_ratio ^ maxiter * maxstep := by
            show golden_ratio ^ maxiter * (maxstep - 0) = _
            ring
        _ ≤ tol := hbudget
    nlinarith [hmid, hwle, hsq2, htol]
  · have hpos : (0 : ℝ) < Real.sqrt 5 + 2 := by linarith [sqrt5_lb]
    have h1 := (mul_lt_mul_left hpos).2 hcase
    have hwlt : (golden_search_loop f tol (golden_init maxstep) maxiter).b
        - (golden_search_loop f tol (golden_init maxstep) maxiter).a
        < (Real.sqrt 5 + 2) * tol := by
      calc (golden_search_loop f tol (golden_init maxstep) maxiter).b
            - (golden_search_loop f tol (golden_init maxstep) maxiter).a
          = ((2 * golden_ratio - 1) * (Real.sqrt 5 + 2))
            * ((golden_search_loop f tol (golden_init maxstep) maxiter).b
              - (golden_search_loop f tol (golden_init maxstep) maxiter).a) := by
            rw [hgid, one_mul]
        _ = (Real.sqrt 5 + 2) * ((2 * golden_ratio - 1)
            * ((golden_search_loop f tol (golden_init maxstep) maxiter).b
              - (golden_search_loop f tol (golden_init maxstep) maxiter).a)) := by
            ring
        _ < (Real.sqrt 5 + 2) * tol := h1
    linarith [hmid, hwlt]

/-- C6 amended witness: the bound at a concrete convex objective with a
unique minimum. -/
theorem golden_search_near_min_witness :
    |golden_search (fun x : ℝ => x ^ 2) 1 1 1 - 0|
      ≤ (Real.sqrt 5 + 2) / 2 * 1 :=
  golden_search_near_min (fun x : ℝ => x ^ 2) 1 1 1 0
    (Even.strictConvexOn_pow (by decide) (by norm_num)).convexOn
    (fun x hx => by
      simpa using lt_of_le_of_ne (sq_nonneg x) (Ne.symm (pow_ne_zero 2 hx)))
    (by constructor <;> norm_num) (by norm_num)
    (by nlinarith [gr_pos, gr_lt_one])

lemma convexOn_abs_sub (m : ℝ) :
    ConvexOn ℝ Set.univ (fun x : ℝ => |x - m|) := by
  refine ⟨convex_univ, ?_⟩
  intro x _ y _ a b ha hb hab
  simp only [smul_eq_mul]
  have hxy : a * x + b * y - m = a * (x - m) + b * (y - m) := by
    linear_combination m * hab
  rw [hxy]
  calc |a * (x - m) + b * (y - m)|
      ≤ |a * (x - m)| + |b * (y - m)| := abs_add _ _
    _ = a * |x - m| + b * |y - m| := by
        rw [abs_mul, abs_mul, abs_of_nonneg ha, abs_of_nonneg hb]

lemma golden_search_abs_eval :
    golden_search (fun x : ℝ => |x - 1 / 100|) 1 10 (4 / 25)
      = (Real.sqrt 5 - 1) / 4 := by
  have h5 : Real.sqrt 5 ^ 2 = 5 := Real.sq_sqrt (by norm_num)
  have hlb := sqrt5_lb
  have hub := sqrt5_ub
  have hgrh := gr_half
  have hgr58 : golden_ratio < 5 / 8 := by
    rw [golden_ratio]; linarith
  have hbr : ((fun x : ℝ => |x - 1 / 100|) (golden_init 1).c)
      < ((fun x : ℝ => |x - 1 / 100|) (golden_init 1).d) := by
    show |(1 - golden_ratio * (1 - 0)) - 1 / 100|
        < |(0 + golden_ratio * (1 - 0)) - 1 / 100|
    rw [abs_of_nonneg (by linarith), abs_of_nonneg (by linarith)]
    linarith
  have hred : interval_reduction (fun x : ℝ => |x - 1 / 100|) (golden_init 1)
      = ⟨0, 0 + golden_ratio * (1 - 0),
          (0 + golden_ratio * (1 - 0))
            - golden_ratio * ((0 + golden_ratio * (1 - 0)) - 0),
          1 - golden_ratio * (1 - 0)⟩ := by
    rw [interval_reduction, if_pos hbr]
    rfl
  have hcd : (interval_reduction (fun x : ℝ => |x - 1 / 100|) (golden_init 1)).c
      - (interval_reduction (fun x : ℝ => |x - 1 / 100|) (golden_init 1)).d
      = (3 * Real.sqrt 5 - 7) / 2 := by
    rw [hred]
    show (0 + golden_ratio * (1 - 0))
        - golden_ratio * ((0 + golden_ratio * (1 - 0)) - 0)
        - (1 - golden_ratio * (1 - 0)) = (3 * Real.sqrt 5 - 7) / 2
    rw [golden_ratio]
    linear_combination (-1 / 4 : ℝ) * h5
  have hstop : |(interval_reduction (fun x : ℝ => |x - 1 / 100|) (golden_init 1)).c
      - (interval_reduction (fun x : ℝ => |x - 1 / 100|) (golden_init 1)).d|
      < 4 / 25 := by
    rw [hcd, abs_of_nonpos (by linarith)]
    linarith
  rw [golden_search, show (10 : ℕ) = 9 + 1 from rfl, golden_search_loop,
    if_pos hstop, hred]
  show ((0 : ℝ) + (0 + golden_ratio * (1 - 0))) / 2 = (Real.sqrt 5 - 1) / 4
  rw [golden_ratio]
  ring

/-- C6 counterexample: for the convex unimodal objective
f(x) = |x - 1/100| with unique minimum m = 1/100 inside [0, 1], tol =
4/25 and a sufficient budget maxiter = 10, golden_search stops after the
first iteration with the bracket [0, phi] and returns its midpoint
(sqrt 5 - 1)/4, which is about 0.299 away from m: strictly farther than
tol = 0.16, so the claimed tol-accuracy fails. -/
theorem golden_search_not_within_tol :
    ConvexOn ℝ Set.univ (fun x : ℝ => |x - 1 / 100|) ∧
    (∀ x : ℝ, |(1 / 100 : ℝ) - 1 / 100| ≤ |x - 1 / 100|) ∧
    (∀ x : ℝ, x ≠ 1 / 100 → |(1 / 100 : ℝ) - 1 / 100| < |x - 1 / 100|) ∧
    (1 / 100 : ℝ) ∈ Set.Icc (0 : ℝ) 1 ∧
    (0 : ℝ) < 4 / 25 ∧
    golden_ratio ^ 10 * 1 ≤ 4 / 25 ∧
    golden_search (fun x : ℝ => |x - 1 / 100|) 1 10 (4 / 25)
      = (Real.sqrt 5 - 1) / 4 ∧
    ¬ (|golden_search (fun x : ℝ => |x - 1 / 100|) 1 10 (4 / 25) - 1 / 100|
        ≤ 4 / 25) := by
  refine ⟨convexOn_abs_sub (1 / 100), ?_, ?_, ?_, by norm_num, ?_,
    golden_search_abs_eval, ?_⟩
  · intro x
    simp only [sub_self, abs_zero]
    exact abs_nonneg _
  · intro x hx
    simp only [sub_self, abs_zero]
    exact abs_pos.2 (sub_ne_zero.2 hx)
  · constructor <;> norm_num
  · have h58 : golden_ratio ≤ 5 / 8 := by
      rw [golden_ratio]; linarith [sqrt5_ub]
    have hp := pow_le_pow_left₀ gr_pos.le h58 10
    calc golden_ratio ^ 10 * 1 = golden_ratio ^ 10 := mul_one _
      _ ≤ (5 / 8 : ℝ) ^ 10 := hp
      _ ≤ 4 / 25 := by norm_num
  · rw [golden_search_abs_eval, not_le,
      abs_of_nonneg (by linarith [sqrt5_lb])]
    linarith [sqrt5_lb]
